import Mathlib

/-!
Shallow embedding of `specify_ug_parties.py` (candidate-resolution core):
the HTML roster extractor `parse_html_candidate_list` and the resolver
`find_candidate_party` / `normalize_name`.

Strings are modelled as `List Char`.  A value that may be missing in the
tabular data (pandas `NaN`) is modelled as `Option (List Char)`, with
`none` playing the role of the missing value.  Python's `\d` and `\s`
character classes and `str.lower`/`str.strip`/`str.split` are modelled on
their ASCII behaviour, which covers all characters appearing in the
patterns and data of the program.

The three regular expressions of the source are hand-compiled into
deterministic matcher functions.  Each matcher is documented with the
regex it implements and follows Python `re.search` semantics (leftmost
match; greedy quantifiers with backtracking).  For these particular
patterns backtracking is only observable in two places (the optional
`[AB]?` suffix and the `\s*([^(]+)` boundary), and it is implemented
explicitly there; everywhere else the greedy choice is forced because the
character that follows a quantified class can never belong to the class.
-/

/-- ASCII whitespace, the characters matched by Python's `\s` and stripped
by `str.strip()` / split on by `str.split()`. -/
def isSpaceC (c : Char) : Bool :=
  c == ' ' || c == '\t' || c == '\n' || c == '\r' || c == '\x0b' || c == '\x0c'

/-- Python `s.strip()`: remove leading and trailing whitespace. -/
def pyStrip (s : List Char) : List Char :=
  ((s.dropWhile isSpaceC).reverse.dropWhile isSpaceC).reverse

/-- Accumulator for `pySplitWs`; `acc` holds the current word reversed. -/
def splitWsAux : List Char → List Char → List (List Char)
  | [], acc => if acc.isEmpty then [] else [acc.reverse]
  | c :: t, acc =>
    if isSpaceC c then
      if acc.isEmpty then splitWsAux t [] else acc.reverse :: splitWsAux t []
    else splitWsAux t (c :: acc)

/-- Python `s.split()` (no separator): split on whitespace runs, dropping
empty pieces. -/
def pySplitWs (s : List Char) : List (List Char) :=
  splitWsAux s []

/-- Python `needle in hay` on strings: substring containment. -/
def pyIn (needle hay : List Char) : Bool :=
  match hay with
  | [] => needle.isEmpty
  | c :: t => needle.isPrefixOf (c :: t) || pyIn needle t

/-- Digit string to number, Python `int(...)` on a `\d+` match. -/
def natOfDigits (ds : List Char) : Nat :=
  ds.foldl (fun a c => a * 10 + (c.toNat - '0'.toNat)) 0

/-- Decimal digits of `n`, most significant first; fuel-structural so that
it reduces by `decide`.  `natDigits` below always supplies enough fuel. -/
def natDigitsAux : Nat → Nat → List Char → List Char
  | 0, _, acc => acc
  | fuel + 1, n, acc =>
    if n = 0 then acc else natDigitsAux fuel (n / 10) (Nat.digitChar (n % 10) :: acc)

/-- Python `str(n)` for a natural number. -/
def natDigits (n : Nat) : List Char :=
  if n = 0 then ['0'] else natDigitsAux n n []

/-- Left-pad with `'0'` to width `w`, Python's `f"{n:0wd}"` padding (it
never truncates). -/
def zfill (w : Nat) (s : List Char) : List Char :=
  List.replicate (w - s.length) '0' ++ s

/-- First index of character `c` in `s`, if any. -/
def firstIdxOf (c : Char) : List Char → Option Nat
  | [] => none
  | d :: t => if d = c then some 0 else (firstIdxOf c t).map (· + 1)

/-- Split `s` around the first occurrence of `needle`: returns the part
before it and the part after it. -/
def splitFirst (needle : List Char) : List Char → Option (List Char × List Char)
  | [] => if needle.isEmpty then some ([], []) else none
  | c :: t =>
    if needle.isPrefixOf (c :: t) then some ([], (c :: t).drop needle.length)
    else
      match splitFirst needle t with
      | some (b, a) => some (c :: b, a)
      | none => none

def pOpenTag : List Char := "<p>".toList

def pCloseTag : List Char := "</p>".toList

/-- Fuel-driven worker for `findParagraphs`; one unit of fuel per emitted
paragraph, so fuel `s.length` is always sufficient. -/
def findParasAux : Nat → List Char → List (List Char)
  | 0, _ => []
  | fuel + 1, s =>
    match splitFirst pOpenTag s with
    | none => []
    | some (_, rest) =>
      match splitFirst pCloseTag rest with
      | none => []
      | some (body, rest2) => body :: findParasAux fuel rest2

/-- `re.findall(r'<p>(.*?)</p>', content, re.DOTALL)`: the lazy `.*?`
means each match runs from a `<p>` to the first following `</p>`, and
scanning resumes after that `</p>`. -/
def findParagraphs (s : List Char) : List (List Char) :=
  findParasAux s.length s

def strongOpenTag : List Char := "<strong>".toList

def strongCloseTag : List Char := "</strong>".toList

/-- One attempt, at the start of `s`, of the department-header pattern
`<strong>([^<]+)</strong>\s*\((\d{2,3}[AB]?)\)`; returns group 2 (the
department code).  `([^<]+)` and `\s*` are forced to their maximal runs
(the character after them cannot re-match the class); the only live
backtracking is `[AB]?`, tried with the letter first and then empty. -/
def deptMatchAt (s : List Char) : Option (List Char) :=
  if strongOpenTag.isPrefixOf s then
    let r0 := s.drop strongOpenTag.length
    let g1 := r0.takeWhile (fun c => c ≠ '<')
    let r1 := r0.dropWhile (fun c => c ≠ '<')
    if g1.isEmpty then none
    else if strongCloseTag.isPrefixOf r1 then
      match (r1.drop strongCloseTag.length).dropWhile isSpaceC with
      | '(' :: r4 =>
        let ds := r4.takeWhile Char.isDigit
        if ds.length = 2 ∨ ds.length = 3 then
          match r4.dropWhile Char.isDigit with
          | 'A' :: ')' :: _ => some (ds ++ ['A'])
          | 'B' :: ')' :: _ => some (ds ++ ['B'])
          | ')' :: _ => some ds
          | _ => none
        else none
      | _ => none
    else none
  else none

/-- `re.search` of the department-header pattern: try a match at every
position, leftmost first. -/
def searchDept : List Char → Option (List Char)
  | [] => none
  | c :: t =>
    match deptMatchAt (c :: t) with
    | some code => some code
    | none => searchDept t

/-- The ordinal suffix alternation `(?:ère|e|re)`.  The three alternatives
begin with pairwise distinct characters, so at most one of them can apply
and the committed choice is exact. -/
def ordSuffix (r0 : List Char) : Option (List Char) :=
  if ['è', 'r', 'e'].isPrefixOf r0 then some (r0.drop 3)
  else if ['e'].isPrefixOf r0 then some (r0.drop 1)
  else if ['r', 'e'].isPrefixOf r0 then some (r0.drop 2)
  else none

def circWord : List Char := "circonscription".toList

/-- The tail `\s*([^(]+)\(([^)]+)\)` of the candidate pattern, at position
`r5` (just after the colon); returns (group 2, group 3).  `[^(]+` is
forced to run to the first `'('`, which must exist and not be the very
first character; when everything before that `'('` is whitespace, `\s*`
backtracks by one so that `[^(]+` keeps one whitespace character.
`[^)]+` likewise runs to the first `')'` after the `'('`. -/
def candTail (r5 : List Char) : Option (List Char × List Char) :=
  match firstIdxOf '(' r5 with
  | none => none
  | some q =>
    if q = 0 then none
    else
      let w := (r5.takeWhile isSpaceC).length
      let g2 := if w < q then (r5.drop w).take (q - w) else (r5.drop (q - 1)).take 1
      let r6 := r5.drop (q + 1)
      match firstIdxOf ')' r6 with
      | none => none
      | some p => if p = 0 then none else some (g2, r6.take p)

/-- One attempt, at the start of `s`, of the candidate pattern
`(\d+)(?:ère|e|re)\s+circonscription\s*:\s*([^(]+)\(([^)]+)\)`;
returns (group 1, group 2, group 3).  `\d+` and each `\s` run are forced
to their maximal extent (the following required character never belongs
to the class). -/
def candMatchAt (s : List Char) : Option (List Char × List Char × List Char) :=
  let ds := s.takeWhile Char.isDigit
  if ds.isEmpty then none
  else
    match ordSuffix (s.dropWhile Char.isDigit) with
    | none => none
    | some r1 =>
      if (r1.takeWhile isSpaceC).isEmpty then none
      else
        let r2 := r1.dropWhile isSpaceC
        if circWord.isPrefixOf r2 then
          match (r2.drop circWord.length).dropWhile isSpaceC with
          | ':' :: r5 =>
            match candTail r5 with
            | some (g2, g3) => some (ds, g2, g3)
            | none => none
          | _ => none
        else none

/-- `re.search` of the candidate pattern: try a match at every position,
leftmost first. -/
def searchCand : List Char → Option (List Char × List Char × List Char)
  | [] => none
  | c :: t =>
    match candMatchAt (c :: t) with
    | some r => some r
    | none => searchCand t

/-- One extracted roster record, the dict value stored per code in
`parse_html_candidate_list` (`name`, `party`, `original_party_text`). -/
structure CandidateRecord where
  name : List Char
  party : List Char
  original_party_text : List Char
deriving DecidableEq

/-- The candidates dictionary: insertion-ordered association list, the
model of a Python `dict`. -/
abbrev Roster := List (List Char × CandidateRecord)

/-- Python `k in d` / `d[k]` read side: first (and, with unique keys,
only) binding of `k`. -/
def dictLookup (d : Roster) (k : List Char) : Option CandidateRecord :=
  match d with
  | [] => none
  | p :: t => if p.1 = k then some p.2 else dictLookup t k

/-- Python `d[k] = v`: replace the binding in place if the key is
present (insertion order kept), otherwise append the new binding. -/
def dictInsert (d : Roster) (k : List Char) (v : CandidateRecord) : Roster :=
  match d with
  | [] => [(k, v)]
  | p :: t => if p.1 = k then (k, v) :: t else p :: dictInsert t k v

/-- The `PARTY_MAPPING` table of the source. -/
def PARTY_MAPPING : List (List Char × List Char) :=
  [("PS-PP".toList, "PS".toList),
   ("Les Écologistes".toList, "EELV".toList),
   ("FI".toList, "FI".toList),
   ("PCF".toList, "PCF".toList),
   ("G.s".toList, "G.S".toList),
   ("Ouverture".toList, "DVG".toList),
   ("REV".toList, "REV".toList),
   ("Génération écologie".toList, "ECO".toList),
   ("Euskal Herria Bai".toList, "REG".toList),
   ("Picardie Debout".toList, "DVG".toList),
   ("NPA".toList, "EXG".toList)]

/-- Python `tbl.get(k, k)`: mapped value, or the key itself when
unmapped. -/
def lookupDefault (tbl : List (List Char × List Char)) (k : List Char) : List Char :=
  match tbl with
  | [] => k
  | p :: t => if p.1 = k then p.2 else lookupDefault t k

/-- The circonscription-code construction of the source: department code
plus the seat number formatted `"%02d"` for 2-character department codes
and `"%01d"` otherwise (comment in the source: `# 2A, 2B format`). -/
def mkCirconscriptionCode (dept : List Char) (num : Nat) : List Char :=
  if dept.length = 2 then dept ++ zfill 2 (natDigits num)
  else dept ++ zfill 1 (natDigits num)

/-- The key/value pair built from one matched candidate block: code from
`mkCirconscriptionCode`, stripped party text mapped through
`PARTY_MAPPING`, candidate name stripped, lower-cased and
whitespace-collapsed. -/
def buildEntry (dept num rawName rawParty : List Char) : List Char × CandidateRecord :=
  (mkCirconscriptionCode dept (natOfDigits num),
   { name := List.intercalate [' '] (pySplitWs ((pyStrip rawName).map Char.toLower))
     party := lookupDefault PARTY_MAPPING (pyStrip rawParty)
     original_party_text := pyStrip rawParty })

def insertEntry (d : Roster) (e : List Char × CandidateRecord) : Roster :=
  dictInsert d e.1 e.2

/-- One iteration of the paragraph loop of `parse_html_candidate_list`:
state is (current department code, candidates dict).  A header match
updates the department code and ends the iteration (`continue`); a
candidate match is stored only when a current department code exists;
anything else leaves the state unchanged. -/
def stepPara (st : Option (List Char) × Roster) (para : List Char) : Option (List Char) × Roster :=
  match searchDept para with
  | some code => (some code, st.2)
  | none =>
    match searchCand para, st.1 with
    | some (num, rawName, rawParty), some dept =>
      (st.1, insertEntry st.2 (buildEntry dept num rawName rawParty))
    | _, _ => st

/-- `parse_html_candidate_list`, after the file read: split the document
into paragraphs and fold the paragraph loop over them, starting with no
current department code and an empty dict. -/
def parse_html_candidate_list (content : List Char) : Roster :=
  ((findParagraphs content).foldl stepPara (none, [])).2

/-- `normalize_name`: missing values (pandas `NaN`, modelled `none`)
become `""`; otherwise lower-case and collapse whitespace runs. -/
def normalize_name (name : Option (List Char)) : List Char :=
  match name with
  | none => []
  | some s => List.intercalate [' '] (pySplitWs (s.map Char.toLower))

/-- `find_candidate_party`: `none` when the code is absent; otherwise the
entry's party exactly when one of the three substring tests passes
(`prenom in name and nom in name`, `name in full_name`,
`full_name in name`, with `full_name = f"{prenom} {nom}".strip()`). -/
def find_candidate_party (nom prenom : Option (List Char)) (code : List Char) (d : Roster) :
    Option (List Char) :=
  match dictLookup d code with
  | none => none
  | some info =>
    if (pyIn (normalize_name prenom) info.name && pyIn (normalize_name nom) info.name)
        || pyIn info.name (pyStrip (normalize_name prenom ++ ' ' :: normalize_name nom))
        || pyIn (pyStrip (normalize_name prenom ++ ' ' :: normalize_name nom)) info.name
    then some info.party
    else none

/-- Ghost companion of the paragraph loop: the key/value pairs the scan
emits, in document order, before the dict collapses duplicate keys.  Used
to state the overwrite discipline of the extractor. -/
def scanRecords : List (List Char) → Option (List Char) → List (List Char × CandidateRecord)
  | [], _ => []
  | para :: rest, cur =>
    match searchDept para with
    | some code => scanRecords rest (some code)
    | none =>
      match searchCand para, cur with
      | some (num, rawName, rawParty), some dept =>
        buildEntry dept num rawName rawParty :: scanRecords rest cur
      | _, _ => scanRecords rest cur

/-- Value of the last pair in `recs` whose key is `k`, if any. -/
def lastAssign (recs : List (List Char × CandidateRecord)) (k : List Char) :
    Option CandidateRecord :=
  match recs with
  | [] => none
  | kv :: rest =>
    match lastAssign rest k with
    | some v => some v
    | none => if kv.1 = k then some kv.2 else none

/-- The keys of the candidates dict, in insertion order. -/
def dictKeys (d : Roster) : List (List Char) :=
  d.map Prod.fst

/-- Document with a recognized 2-character department header and a seat
ordinal of 100, whose constructed key is 5 characters long. -/
def docSeat100 : List Char :=
  "<p><strong>AIN</strong> (01)</p><p>100e circonscription : Al Ba (FI)</p>".toList

/-- Document whose header carries the literal code `(2A)`. -/
def docCorse2A : List Char :=
  "<p><strong>CORSE</strong> (2A)</p><p>1ère circonscription : Jo Ko (PCF)</p>".toList

/-- Document whose header carries the code `(02A)` (two digits plus the
`A` suffix, which the header pattern does accept). -/
def docCorse02A : List Char :=
  "<p><strong>CORSE DU SUD</strong> (02A)</p><p>1ère circonscription : Jo Ko (PCF)</p>".toList

/-- Document consisting of a single candidate block with no department
header anywhere before it. -/
def docNoHeader : List Char :=
  "<p>1ère circonscription : Aa Bb (FI)</p>".toList

/-- A paragraph matching both the department-header pattern and the
candidate pattern. -/
def paraBothEx : List Char :=
  "<strong>AIN</strong> (01) 1ère circonscription : Ann Bee (FI)".toList

/-- A one-entry roster index, the extraction of the worked example of the
specification (`"0101" -> jane doe / PS`). -/
def rosterEx : Roster :=
  [("0101".toList, ⟨"jane doe".toList, "PS".toList, "PS-PP".toList⟩)]

/-! ### Helper lemmas -/

theorem pyIn_nil (h : List Char) : pyIn [] h = true := by
  induction h with
  | nil => rfl
  | cons c t ih => simp [pyIn, List.isPrefixOf]

theorem dictLookup_dictInsert (d : Roster) (k : List Char) (v : CandidateRecord)
    (k' : List Char) :
    dictLookup (dictInsert d k v) k' = if k = k' then some v else dictLookup d k' := by
  induction d with
  | nil =>
    by_cases hk : k = k' <;> simp [dictInsert, dictLookup, hk]
  | cons p t ih =>
    by_cases hp : p.1 = k
    · by_cases hk : k = k'
      · simp [dictInsert, hp, dictLookup, hk]
      · have hp' : ¬ p.1 = k' := by rw [hp]; exact hk
        simp [dictInsert, hp, dictLookup, hk, hp']
    · by_cases hpk : p.1 = k'
      · have hk : ¬ k = k' := fun h => hp (by rw [h, hpk])
        have hk' : ¬ k' = k := fun h => hk h.symm
        simp [dictInsert, hp, dictLookup, hpk, hk, hk']
      · simp [dictInsert, hp, dictLookup, hpk, ih]

theorem dictLookup_foldl_insertEntry (recs : List (List Char × CandidateRecord)) :
    ∀ (d : Roster) (k : List Char),
      dictLookup (recs.foldl insertEntry d) k =
        match lastAssign recs k with
        | some v => some v
        | none => dictLookup d k := by
  induction recs with
  | nil => intro d k; rfl
  | cons kv rest ih =>
    intro d k
    simp only [List.foldl_cons]
    rw [ih]
    cases hLA : lastAssign rest k with
    | some v => simp [lastAssign, hLA]
    | none =>
      simp only [lastAssign, hLA]
      rw [insertEntry, dictLookup_dictInsert]
      by_cases hk : kv.1 = k <;> simp [hk]

theorem mem_dictKeys_dictInsert (d : Roster) (k : List Char) (v : CandidateRecord)
    (x : List Char) :
    x ∈ dictKeys (dictInsert d k v) ↔ x ∈ dictKeys d ∨ x = k := by
  induction d with
  | nil => simp [dictInsert, dictKeys]
  | cons p t ih =>
    by_cases hp : p.1 = k
    · simp only [dictInsert, if_pos hp, dictKeys, List.map_cons, List.mem_cons]
      rw [hp]
      tauto
    · simp only [dictInsert, if_neg hp, dictKeys, List.map_cons, List.mem_cons]
      rw [show (dictInsert t k v).map Prod.fst = dictKeys (dictInsert t k v) from rfl, ih]
      simp only [dictKeys]
      tauto

theorem nodup_dictKeys_dictInsert (d : Roster) (k : List Char) (v : CandidateRecord)
    (h : (dictKeys d).Nodup) :
    (dictKeys (dictInsert d k v)).Nodup := by
  induction d with
  | nil => simp [dictInsert, dictKeys]
  | cons p t ih =>
    simp only [dictKeys, List.map_cons, List.nodup_cons] at h
    by_cases hp : p.1 = k
    · simp only [dictInsert, if_pos hp, dictKeys, List.map_cons, List.nodup_cons]
      exact ⟨by rw [← hp]; exact h.1, h.2⟩
    · simp only [dictInsert, if_neg hp, dictKeys, List.map_cons, List.nodup_cons]
      refine ⟨?_, ih h.2⟩
      rw [show (dictInsert t k v).map Prod.fst = dictKeys (dictInsert t k v) from rfl,
        mem_dictKeys_dictInsert]
      rintro (hmem | heq)
      · exact h.1 hmem
      · exact hp heq

theorem nodup_dictKeys_foldl (recs : List (List Char × CandidateRecord)) :
    ∀ d : Roster, (dictKeys d).Nodup → (dictKeys (recs.foldl insertEntry d)).Nodup := by
  induction recs with
  | nil => intro d h; exact h
  | cons kv rest ih =>
    intro d h
    simp only [List.foldl_cons]
    exact ih _ (nodup_dictKeys_dictInsert _ _ _ h)

theorem foldl_stepPara_eq (paras : List (List Char)) :
    ∀ (cur : Option (List Char)) (acc : Roster),
      (paras.foldl stepPara (cur, acc)).2 = (scanRecords paras cur).foldl insertEntry acc := by
  induction paras with
  | nil => intro cur acc; rfl
  | cons para rest ih =>
    intro cur acc
    simp only [List.foldl_cons, scanRecords]
    cases hd : searchDept para with
    | some code => simp [stepPara, hd, ih]
    | none =>
      cases hc : searchCand para with
      | none => cases cur <;> simp [stepPara, hd, hc, ih]
      | some r =>
        obtain ⟨num, rawName, rawParty⟩ := r
        cases cur <;> simp [stepPara, hd, hc, ih]

theorem foldl_stepPara_no_header (pre : List (List Char)) :
    ∀ acc : Roster, (∀ p ∈ pre, searchDept p = none) →
      pre.foldl stepPara (none, acc) = (none, acc) := by
  induction pre with
  | nil => intro acc _; rfl
  | cons p rest ih =>
    intro acc h
    have hp := h p (by simp)
    have hstep : stepPara (none, acc) p = (none, acc) := by
      cases hc : searchCand p with
      | none => simp [stepPara, hp, hc]
      | some r => obtain ⟨a, b, c⟩ := r; simp [stepPara, hp, hc]
    simp only [List.foldl_cons, hstep]
    exact ih acc (fun q hq => h q (by simp [hq]))

/-! ### Claim theorems -/

/-- Claim C1 (amended): the circonscription code built by the extractor is
exactly 4 characters long for a 2-character department code whenever the
seat ordinal is below 100, and for a 3-character department code whenever
the seat ordinal is below 10; the `"%02d"`/`"%01d"` padding never
truncates, so larger seat ordinals produce longer keys. -/
theorem mkCirconscriptionCode_length_four (dept : List Char) (num : Nat) :
    (dept.length = 2 → num < 100 → (mkCirconscriptionCode dept num).length = 4) ∧
    (dept.length = 3 → num < 10 → (mkCirconscriptionCode dept num).length = 4) := by
  constructor
  · intro h2 hlt
    have hL : (natDigits num).length ≤ 2 :=
      (show ∀ n, n < 100 → (natDigits n).length ≤ 2 by decide) num hlt
    unfold mkCirconscriptionCode
    rw [if_pos h2]
    simp only [zfill, List.length_append, List.length_replicate, h2]
    omega
  · intro h3 hlt
    have hif : ¬ dept.length = 2 := by omega
    have hL : (natDigits num).length ≤ 1 :=
      (show ∀ n, n < 10 → (natDigits n).length ≤ 1 by decide) num hlt
    unfold mkCirconscriptionCode
    rw [if_neg hif]
    simp only [zfill, List.length_append, List.length_replicate, h3]
    omega

theorem mkCirconscriptionCode_length_four_witness :
    (mkCirconscriptionCode ("01".toList) 5).length = 4 ∧
    (mkCirconscriptionCode ("02A".toList) 1).length = 4 :=
  ⟨(mkCirconscriptionCode_length_four ("01".toList) 5).1 (by decide) (by decide),
   (mkCirconscriptionCode_length_four ("02A".toList) 1).2 (by decide) (by decide)⟩

set_option maxRecDepth 8000 in
/-- Claim C1, as stated, is false: `docSeat100` is a document with a
recognized 2-character department code (`01`) and seat ordinal 100, and
the extractor stores its record under a 5-character key (`01100`). -/
theorem parse_key_length_counterexample :
    ¬ (∀ kv ∈ parse_html_candidate_list docSeat100, kv.1.length = 4) := by decide

/-- Claim C2: the resolver returns `none` when the code is absent from
the index; when the code is present it returns the stored entry's party
code exactly when at least one of the three substring tests passes (both
normalized names are substrings of the roster name, or the roster name is
a substring of the trimmed constructed full name, or that full name is a
substring of the roster name), and `none` otherwise. -/
theorem find_candidate_party_matching_policy (nom prenom : Option (List Char))
    (code : List Char) (d : Roster) :
    (dictLookup d code = none → find_candidate_party nom prenom code d = none) ∧
    (∀ info, dictLookup d code = some info →
      (find_candidate_party nom prenom code d = some info.party ↔
        ((pyIn (normalize_name prenom) info.name = true ∧
            pyIn (normalize_name nom) info.name = true) ∨
          pyIn info.name (pyStrip (normalize_name prenom ++ ' ' :: normalize_name nom)) = true ∨
          pyIn (pyStrip (normalize_name prenom ++ ' ' :: normalize_name nom)) info.name = true)) ∧
      (find_candidate_party nom prenom code d = none ↔
        ¬ ((pyIn (normalize_name prenom) info.name = true ∧
              pyIn (normalize_name nom) info.name = true) ∨
            pyIn info.name (pyStrip (normalize_name prenom ++ ' ' :: normalize_name nom)) = true ∨
            pyIn (pyStrip (normalize_name prenom ++ ' ' :: normalize_name nom)) info.name = true))) := by
  constructor
  · intro h
    simp [find_candidate_party, h]
  · intro info h
    by_cases hP : ((pyIn (normalize_name prenom) info.name && pyIn (normalize_name nom) info.name)
        || pyIn info.name (pyStrip (normalize_name prenom ++ ' ' :: normalize_name nom))
        || pyIn (pyStrip (normalize_name prenom ++ ' ' :: normalize_name nom)) info.name) = true
    · have hres : find_candidate_party nom prenom code d = some info.party := by
        simp [find_candidate_party, h, hP]
      have hRHS := hP
      simp only [Bool.or_eq_true, Bool.and_eq_true] at hRHS
      rw [or_assoc] at hRHS
      refine ⟨⟨fun _ => hRHS, fun _ => hres⟩, ⟨fun hc => ?_, fun hn => absurd hRHS hn⟩⟩
      rw [hres] at hc
      exact Option.noConfusion hc
    · have hres : find_candidate_party nom prenom code d = none := by
        simp only [find_candidate_party, h]
        rw [if_neg hP]
      have hnRHS := hP
      simp only [Bool.or_eq_true, Bool.and_eq_true] at hnRHS
      rw [or_assoc] at hnRHS
      refine ⟨⟨fun hc => ?_, fun hr => absurd hr hnRHS⟩, ⟨fun _ => hnRHS, fun _ => hres⟩⟩
      rw [hres] at hc
      exact Option.noConfusion hc

theorem find_candidate_party_matching_policy_witness :
    find_candidate_party (some "DOE".toList) (some "Jane".toList) ("0101".toList) rosterEx =
      some ("PS".toList) :=
  ((find_candidate_party_matching_policy (some "DOE".toList) (some "Jane".toList)
      ("0101".toList) rosterEx).2
    ⟨"jane doe".toList, "PS".toList, "PS-PP".toList⟩ (by decide)).1.mpr
    (Or.inl ⟨by decide, by decide⟩)

/-- Claim C3: `normalize_name` maps a missing value to the empty string,
and whenever both name arguments normalize to the empty string the
constructed full name is empty, which is a substring of the roster name;
so for any code present in the index the resolver returns the stored
party code rather than `none` (no special-casing of empty input). -/
theorem find_candidate_party_blank_names (nom prenom : Option (List Char))
    (code : List Char) (d : Roster) (info : CandidateRecord)
    (hlook : dictLookup d code = some info)
    (hnom : normalize_name nom = []) (hpre : normalize_name prenom = []) :
    normalize_name none = [] ∧ find_candidate_party nom prenom code d = some info.party := by
  refine ⟨rfl, ?_⟩
  have hfull : pyStrip (normalize_name prenom ++ ' ' :: normalize_name nom) = [] := by
    rw [hnom, hpre]; rfl
  simp [find_candidate_party, hlook, hnom, hpre, hfull, pyIn_nil]

theorem find_candidate_party_blank_names_witness :
    find_candidate_party none (some " ".toList) ("0101".toList) rosterEx =
      some ("PS".toList) :=
  (find_candidate_party_blank_names none (some " ".toList) ("0101".toList) rosterEx
    ⟨"jane doe".toList, "PS".toList, "PS-PP".toList⟩ (by decide) (by decide) (by decide)).2

set_option maxRecDepth 8000 in
/-- Claim C4, as stated, is false: the header pattern requires two or
three digits before the optional `A`/`B` suffix, so the block
`<strong>CORSE</strong> (2A)` is not recognized as a department header;
the following first-seat candidate block is dropped for lack of a current
department code, and the index is empty (no `2A1` key is produced). -/
theorem corse_2A_header_counterexample :
    searchDept ("<strong>CORSE</strong> (2A)".toList) = none ∧
    parse_html_candidate_list docCorse2A = [] := by decide

set_option maxRecDepth 8000 in
/-- Claim C4 (amended): a header whose parenthesized code is `02A` (two
digits plus the `A` suffix) is recognized, sets the current department
code to `02A`, and a following first-seat candidate block yields the
4-character key `02A1` per the 1-digit seat rule for 3-character
department codes. -/
theorem corse_02A_header_recognized :
    searchDept ("<strong>CORSE DU SUD</strong> (02A)".toList) = some ("02A".toList) ∧
    parse_html_candidate_list docCorse02A =
      [("02A1".toList, ⟨"jo ko".toList, "PCF".toList, "PCF".toList⟩)] := by decide

/-- Claim C5: for every document the extractor's index has at most one
record per code, and the record looked up at any code is the one emitted
by the last candidate block (in document order) that mapped to that code
(`lastAssign` of the emitted record sequence `scanRecords`). -/
theorem parse_last_occurrence_wins (content : List Char) :
    (dictKeys (parse_html_candidate_list content)).Nodup ∧
    ∀ k, dictLookup (parse_html_candidate_list content) k =
      lastAssign (scanRecords (findParagraphs content) none) k := by
  constructor
  · show (dictKeys ((List.foldl stepPara (none, []) (findParagraphs content)).2)).Nodup
    rw [foldl_stepPara_eq]
    exact nodup_dictKeys_foldl _ _ (by simp [dictKeys])
  · intro k
    show dictLookup ((List.foldl stepPara (none, []) (findParagraphs content)).2) k = _
    rw [foldl_stepPara_eq, dictLookup_foldl_insertEntry]
    cases h : lastAssign (scanRecords (findParagraphs content) none) k <;>
      simp [dictLookup]

/-- Claim C6: any run of blocks none of which matches the department
header pattern, placed at the start of the document, contributes nothing:
extraction over the whole document equals extraction over the remaining
blocks, still starting with no current department code.  In particular a
candidate block preceded by no header anywhere earlier contributes no
entry. -/
theorem parse_drops_preheader_candidates (content : List Char)
    (pre post : List (List Char))
    (hsplit : findParagraphs content = pre ++ post)
    (hnohdr : ∀ p ∈ pre, searchDept p = none) :
    parse_html_candidate_list content = (post.foldl stepPara (none, [])).2 := by
  show (List.foldl stepPara (none, []) (findParagraphs content)).2 = _
  rw [hsplit, List.foldl_append, foldl_stepPara_no_header pre [] hnohdr]

theorem parse_drops_preheader_candidates_witness :
    parse_html_candidate_list docNoHeader = [] :=
  parse_drops_preheader_candidates docNoHeader
    ["1ère circonscription : Aa Bb (FI)".toList] [] (by decide) (by decide)

/-- Claim C7: a paragraph that matches the department-header pattern is
processed as a header only — the scan state's current department code is
replaced by the matched code and the candidates dict is left unchanged —
even when the paragraph also matches the candidate pattern (the header
check precedes the candidate check). -/
theorem stepPara_header_precedence (para : List Char)
    (st : Option (List Char) × Roster) (code : List Char)
    (hdept : searchDept para = some code) (_hcand : searchCand para ≠ none) :
    stepPara st para = (some code, st.2) := by
  simp [stepPara, hdept]

theorem stepPara_header_precedence_witness :
    stepPara (none, []) paraBothEx = (some ("01".toList), []) :=
  stepPara_header_precedence paraBothEx (none, []) ("01".toList) (by decide) (by decide)

/-- Claim C8: the extractor is total — `parse_html_candidate_list` is a
total function of the document text by construction (the only failure
mode of the source, an unreadable file, happens before this function's
input exists) — and a paragraph matching neither the header pattern nor
the candidate pattern is silently skipped: the scan state is unchanged
and processing continues with the next block. -/
theorem stepPara_skips_unmatched (para : List Char)
    (st : Option (List Char) × Roster)
    (hdept : searchDept para = none) (hcand : searchCand para = none) :
    stepPara st para = st := by
  simp [stepPara, hdept, hcand]

theorem stepPara_skips_unmatched_witness :
    stepPara (none, []) ("hello world".toList) = (none, []) :=
  stepPara_skips_unmatched ("hello world".toList) (none, []) (by decide) (by decide)

/-- Claim C9: when both normalized names are substrings of the roster
entry's normalized name, the resolver returns the entry's party code, and
it still does so when the surname and given-name arguments are swapped
(order-invariance of the first matching test). -/
theorem find_candidate_party_order_invariant (nom prenom : Option (List Char))
    (code : List Char) (d : Roster) (info : CandidateRecord)
    (hlook : dictLookup d code = some info)
    (hn : pyIn (normalize_name nom) info.name = true)
    (hp : pyIn (normalize_name prenom) info.name = true) :
    find_candidate_party nom prenom code d = some info.party ∧
    find_candidate_party prenom nom code d = some info.party := by
  constructor <;> simp [find_candidate_party, hlook, hn, hp]

theorem find_candidate_party_order_invariant_witness :
    find_candidate_party (some "DOE".toList) (some "Jane".toList) ("0101".toList) rosterEx =
        some ("PS".toList) ∧
      find_candidate_party (some "Jane".toList) (some "DOE".toList) ("0101".toList) rosterEx =
        some ("PS".toList) :=
  find_candidate_party_order_invariant (some "DOE".toList) (some "Jane".toList)
    ("0101".toList) rosterEx ⟨"jane doe".toList, "PS".toList, "PS-PP".toList⟩
    (by decide) (by decide) (by decide)

/-- Claim C10: the resolver either returns `none` or returns exactly the
`party` field of the record stored in the index at the looked-up code; it
never returns a party taken from any other record (and, being a pure
function of its arguments in this embedding, it does not mutate the
index). -/
theorem find_candidate_party_result_sound (nom prenom : Option (List Char))
    (code : List Char) (d : Roster) :
    find_candidate_party nom prenom code d = none ∨
    ∃ info, dictLookup d code = some info ∧
      find_candidate_party nom prenom code d = some info.party := by
  cases h : dictLookup d code with
  | none => exact Or.inl (by simp [find_candidate_party, h])
  | some info =>
    by_cases hP : ((pyIn (normalize_name prenom) info.name && pyIn (normalize_name nom) info.name)
        || pyIn info.name (pyStrip (normalize_name prenom ++ ' ' :: normalize_name nom))
        || pyIn (pyStrip (normalize_name prenom ++ ' ' :: normalize_name nom)) info.name) = true
    · exact Or.inr ⟨info, rfl, by simp [find_candidate_party, h, hP]⟩
    · refine Or.inl ?_
      simp only [find_candidate_party, h]
      rw [if_neg hP]
